import Mathlib

/-!
# JsonEscapeUnescapeTool — verification of the escape/unescape core

Shallow embedding of `src/script.js`. A JavaScript string is a sequence of
UTF-16 code units; we model it as `List Nat` (each element the code unit
value, always `< 2 ^ 16` for a real JS string). The escaper
`escapeJsonString` is translated from the source line by line; the
unescaper delegates to the host `JSON.parse` on the input wrapped in double
quotes, which is not part of the repository's source, so the JSON
string-literal parser is modelled from the spec's grammar description.
-/

/-- One uppercase hexadecimal digit character (as a code unit):
`0`-`9` are 48-57, `A`-`F` are 65-70. Models one digit of JavaScript
`charCode.toString(16).toUpperCase()` in `src/script.js` line 55. -/
def hexDigitChar (n : Nat) : Nat :=
  if n < 10 then 48 + n else 55 + n

/-- Fuel-driven core of `Nat.toString 16` (uppercase): most significant
digit first, no leading zeros, `0` for zero. The fuel only bounds the
recursion; `toHex` always supplies enough. -/
def toHexAux (fuel : Nat) (n : Nat) : List Nat :=
  match fuel with
  | 0 => []
  | f + 1 =>
    if n < 16 then [hexDigitChar n]
    else toHexAux f (n / 16) ++ [hexDigitChar (n % 16)]

/-- `charCode.toString(16).toUpperCase()` from `src/script.js` line 55,
as a list of code units. -/
def toHex (n : Nat) : List Nat := toHexAux (n + 1) n

/-- `'0000'.substring(hexCode.length) + hexCode` from `src/script.js`
line 56: left-pad with zeros to 4 characters (no padding once the
length reaches 4, as `substring` clamps). -/
def pad4 (s : List Nat) : List Nat := List.replicate (4 - s.length) 48 ++ s

/-- The `switch (currentChar)` body of `escapeJsonString`
(`src/script.js` lines 26-61): the output appended for one input code
unit `c`. Cases in source order; the default branch emits `\uXXXX` for
code units below 32 or above 126 and passes printable ASCII through. -/
def escapeChar (c : Nat) : List Nat :=
  if c = 34 then [92, 34]
  else if c = 92 then [92, 92]
  else if c = 47 then [92, 47]
  else if c = 8 then [92, 98]
  else if c = 12 then [92, 102]
  else if c = 10 then [92, 110]
  else if c = 13 then [92, 114]
  else if c = 9 then [92, 116]
  else if c < 32 ∨ c > 126 then 92 :: 117 :: pad4 (toHex c)
  else [c]

/-- `escapeJsonString` (`src/script.js` lines 22-64): iterate the input
one code unit at a time, appending `escapeChar` of each to the
accumulated result (the `escapedResult += ...` loop). -/
def escapeJsonString (input : List Nat) : List Nat :=
  input.foldl (fun acc c => acc ++ escapeChar c) []

/-- Value of a hexadecimal digit code unit (both cases accepted, as in
the JSON grammar), `none` for a non-digit. -/
def hexVal (c : Nat) : Option Nat :=
  if 48 ≤ c ∧ c ≤ 57 then some (c - 48)
  else if 65 ≤ c ∧ c ≤ 70 then some (c - 55)
  else if 97 ≤ c ∧ c ≤ 102 then some (c - 87)
  else none

/-- The two-character escape table of the JSON string grammar: the code
unit denoted by `\e`, or `none` when `\e` is not a legal escape
(`\u` is handled separately). -/
def escCode (e : Nat) : Option Nat :=
  if e = 34 then some 34
  else if e = 92 then some 92
  else if e = 47 then some 47
  else if e = 98 then some 8
  else if e = 102 then some 12
  else if e = 110 then some 10
  else if e = 114 then some 13
  else if e = 116 then some 9
  else none

/-- Modelled from the spec: the body-consuming step of the host JSON
string-literal parser (`JSON.parse` in `src/script.js` line 100 is not
part of this repository's source). Given the code units after an opening
quote, consume up to and including the closing quote, returning the
decoded value and the uneaten remainder; `none` on a malformed escape,
a raw control character (code below 32), or a missing closing quote.
Per the spec §4.2 and §9: six named escapes, `\/`, `\uXXXX` with four
hexadecimal digits decoding to that code unit (lone surrogate halves
included). -/
def parseStringBody : List Nat → Option (List Nat × List Nat)
  | [] => none
  | c :: rest =>
    if c = 34 then some ([], rest)
    else if c = 92 then
      match rest with
      | [] => none
      | e :: rest2 =>
        if e = 117 then
          match rest2 with
          | h1 :: h2 :: h3 :: h4 :: rest3 =>
            match hexVal h1, hexVal h2, hexVal h3, hexVal h4 with
            | some v1, some v2, some v3, some v4 =>
              (parseStringBody rest3).map
                (fun p => ((v1 * 4096 + v2 * 256 + v3 * 16 + v4) :: p.1, p.2))
            | _, _, _, _ => none
          | _ => none
        else
          match escCode e with
          | some d => (parseStringBody rest2).map (fun p => (d :: p.1, p.2))
          | none => none
    else if c < 32 then none
    else (parseStringBody rest).map (fun p => (c :: p.1, p.2))

/-- Modelled from the spec: parsing a whole JSON string literal — an
opening quote, a body, a closing quote, and nothing after it (the caller
wraps the entire input in quotes, so the literal must span the whole
text; any code units after the closing quote make the candidate invalid
JSON, as in `"a" b"`). -/
def parseJsonStringLiteral (l : List Nat) : Option (List Nat) :=
  match l with
  | [] => none
  | c :: rest =>
    if c = 34 then
      match parseStringBody rest with
      | some (v, rest2) => if rest2 = [] then some v else none
      | none => none
    else none

/-- The unescape operation of `handleUnescape` (`src/script.js` line
100): `JSON.parse` of the input prefixed and suffixed with a double
quote; `none` models the thrown `SyntaxError`. -/
def unescape (input : List Nat) : Option (List Nat) :=
  parseJsonStringLiteral (34 :: input ++ [34])

/-- Code units of a Lean string literal, for writing concrete inputs. -/
def strCodes (s : String) : List Nat := s.data.map Char.toNat

/-- The fixed diagnostic header of `handleUnescape`
(`src/script.js` line 103). -/
def errorHeader : List Nat :=
  strCodes "ERROR: Invalid string to unescape. Please check the format."

/-- The text `handleUnescape` places between the header and the parser's
own message (`src/script.js` line 103). -/
def detailsSep : List Nat := strCodes "\n\nDetails: "

/-- `handleUnescape` (`src/script.js` lines 92-105) as a function from
the input field text to the output field text. The host parser's
diagnostic message (whose wording the spec leaves to the parser) is
passed in as `parserMsg`. Empty input short-circuits to empty output;
otherwise a successful parse writes the decoded value, and a failure
writes the fixed header followed by the parser's message. -/
def handleUnescape (input parserMsg : List Nat) : List Nat :=
  if input = [] then []
  else
    match unescape input with
    | some v => v
    | none => errorHeader ++ detailsSep ++ parserMsg

/-- Written from the spec's substitution table (§4.1, row `< 32 or > 126`):
`\u` followed by exactly 4 uppercase, zero-padded hexadecimal digits of
the code unit value. Stated directly on the four digit positions, to be
compared with the source's pad-a-variable-length-string construction. -/
def hex4 (c : Nat) : List Nat :=
  [hexDigitChar (c / 4096 % 16), hexDigitChar (c / 256 % 16),
   hexDigitChar (c / 16 % 16), hexDigitChar (c % 16)]

/-- Written from the spec's substitution table (§4.1), first match wins,
one row per branch; to be compared with the source's `escapeChar`. -/
def specEscapeChar (c : Nat) : List Nat :=
  if c = 34 then [92, 34]
  else if c = 92 then [92, 92]
  else if c = 47 then [92, 47]
  else if c = 8 then [92, 98]
  else if c = 12 then [92, 102]
  else if c = 10 then [92, 110]
  else if c = 13 then [92, 114]
  else if c = 9 then [92, 116]
  else if c < 32 ∨ c > 126 then 92 :: 117 :: hex4 c
  else [c]

/-- The JSON string-literal body grammar from the spec (§4.2, §9), as a
derivation relation: `BodyDeriv body v` holds when `body` is a
syntactically valid escaped string body whose decoded Text value is `v` —
plain characters are code units at or above 32 other than quote and
backslash; `\` plus a named-escape character; or `\u` plus four
hexadecimal digits. -/
inductive BodyDeriv : List Nat → List Nat → Prop where
  | nil : BodyDeriv [] []
  | plain {c rest v} : c ≠ 34 → c ≠ 92 → 32 ≤ c →
      BodyDeriv rest v → BodyDeriv (c :: rest) (c :: v)
  | esc {e d rest v} : escCode e = some d →
      BodyDeriv rest v → BodyDeriv (92 :: e :: rest) (d :: v)
  | hex {h1 h2 h3 h4 v1 v2 v3 v4 rest v} :
      hexVal h1 = some v1 → hexVal h2 = some v2 →
      hexVal h3 = some v3 → hexVal h4 = some v4 →
      BodyDeriv rest v →
      BodyDeriv (92 :: 117 :: h1 :: h2 :: h3 :: h4 :: rest)
        ((v1 * 4096 + v2 * 256 + v3 * 16 + v4) :: v)

/-- A high (leading) surrogate code unit. -/
def isHighSurrogate (c : Nat) : Bool := 55296 ≤ c ∧ c ≤ 56319

/-- A low (trailing) surrogate code unit. -/
def isLowSurrogate (c : Nat) : Bool := 56320 ≤ c ∧ c ≤ 57343

/-- No unpaired surrogate code units: every high surrogate is
immediately followed by a low surrogate, and no low surrogate appears
except in that position. -/
def wellFormedUtf16 : List Nat → Bool
  | [] => true
  | c :: rest =>
    if isHighSurrogate c then
      match rest with
      | [] => false
      | d :: rest2 => isLowSurrogate d && wellFormedUtf16 rest2
    else
      !(isLowSurrogate c) && wellFormedUtf16 rest

/-- The UTF-16 encoding of a code point above the Basic Multilingual
Plane: its high and low surrogate halves. -/
def utf16Encode (cp : Nat) : List Nat :=
  [55296 + (cp - 65536) / 1024, 56320 + (cp - 65536) % 1024]

example : escapeJsonString (strCodes "a/b") = strCodes "a\\/b" := by decide
example : escapeJsonString [97, 10, 98] = [97, 92, 110, 98] := by decide
example : escapeJsonString [233] = strCodes "\\u00E9" := by decide
example : unescape (strCodes "a\\nb") = some [97, 10, 98] := by decide
example : unescape (strCodes "a\\qb") = none := by decide
example : unescape (strCodes "a\"b") = none := by decide
example : unescape [] = some [] := by decide
example : handleUnescape (strCodes "a\\qb") (strCodes "boom") =
    errorHeader ++ detailsSep ++ strCodes "boom" := by decide

/-! ## Helper lemmas about the hexadecimal rendering -/

lemma toHexAux_stable : ∀ f, ∀ g n : Nat, n < f → n < g →
    toHexAux f n = toHexAux g n := by
  intro f
  induction f with
  | zero => intro g n h; omega
  | succ f ih =>
    intro g n hf hg
    cases g with
    | zero => omega
    | succ g =>
      by_cases h16 : n < 16
      · simp [toHexAux, h16]
      · simp only [toHexAux, if_neg h16]
        rw [ih g (n / 16) (by omega) (by omega)]

lemma toHex_lt16 {n : Nat} (h : n < 16) : toHex n = [hexDigitChar n] := by
  simp [toHex, toHexAux, h]

lemma toHex_ge16 {n : Nat} (h : 16 ≤ n) :
    toHex n = toHex (n / 16) ++ [hexDigitChar (n % 16)] := by
  have h1 : toHexAux (n + 1) n = toHexAux n (n / 16) ++ [hexDigitChar (n % 16)] := by
    simp [toHexAux, Nat.not_lt.mpr h]
  rw [toHex, h1, toHexAux_stable n (n / 16 + 1) (n / 16) (by omega) (by omega)]
  rfl

lemma padHex_eq {c : Nat} (h : c < 65536) : pad4 (toHex c) = hex4 c := by
  by_cases h1 : c < 16
  · rw [toHex_lt16 h1]
    have e1 : c / 4096 % 16 = 0 := by omega
    have e2 : c / 256 % 16 = 0 := by omega
    have e3 : c / 16 % 16 = 0 := by omega
    have e4 : c % 16 = c := by omega
    simp [pad4, hex4, e1, e2, e3, e4, hexDigitChar, List.replicate]
  · by_cases h2 : c < 256
    · rw [toHex_ge16 (by omega), toHex_lt16 (show c / 16 < 16 by omega)]
      have e1 : c / 4096 % 16 = 0 := by omega
      have e2 : c / 256 % 16 = 0 := by omega
      have e3 : c / 16 % 16 = c / 16 := by omega
      simp [pad4, hex4, e1, e2, e3, hexDigitChar, List.replicate]
    · by_cases h3 : c < 4096
      · rw [toHex_ge16 (by omega), toHex_ge16 (show 16 ≤ c / 16 by omega),
          toHex_lt16 (show c / 16 / 16 < 16 by omega)]
        have d1 : c / 16 / 16 = c / 256 := by omega
        have e1 : c / 4096 % 16 = 0 := by omega
        have e2 : c / 256 % 16 = c / 256 := by omega
        have e3 : c / 16 % 16 = c / 16 % 16 := rfl
        simp [pad4, hex4, d1, e1, e2, hexDigitChar, List.replicate]
      · rw [toHex_ge16 (by omega), toHex_ge16 (show 16 ≤ c / 16 by omega),
          toHex_ge16 (show 16 ≤ c / 16 / 16 by omega),
          toHex_lt16 (show c / 16 / 16 / 16 < 16 by omega)]
        have d1 : c / 16 / 16 = c / 256 := by omega
        have d2 : c / 16 / 16 / 16 = c / 4096 := by omega
        have d3 : c / 256 / 16 = c / 4096 := by omega
        have e1 : c / 4096 % 16 = c / 4096 := by omega
        simp [pad4, hex4, d1, d2, d3, e1, List.replicate]

lemma hexVal_hexDigitChar {k : Nat} (h : k < 16) :
    hexVal (hexDigitChar k) = some k := by
  interval_cases k <;> decide

lemma hexDigitChar_range {k : Nat} (h : k < 16) :
    32 ≤ hexDigitChar k ∧ hexDigitChar k ≤ 126 := by
  unfold hexDigitChar
  split_ifs <;> omega

/-! ## The escaper as a per-character concatenation -/

lemma foldl_escape (l : List Nat) : ∀ acc : List Nat,
    l.foldl (fun a c => a ++ escapeChar c) acc = acc ++ (l.map escapeChar).flatten := by
  induction l with
  | nil => intro acc; simp
  | cons c rest ih => intro acc; simp [ih, List.append_assoc]

lemma escapeJsonString_eq_join (l : List Nat) :
    escapeJsonString l = (l.map escapeChar).flatten := by
  simpa using foldl_escape l []

lemma escape_cons (c : Nat) (rest : List Nat) :
    escapeJsonString (c :: rest) = escapeChar c ++ escapeJsonString rest := by
  simp [escapeJsonString_eq_join]

lemma escape_append (s t : List Nat) :
    escapeJsonString (s ++ t) = escapeJsonString s ++ escapeJsonString t := by
  simp [escapeJsonString_eq_join]

lemma escapeChar_eq_spec {c : Nat} (h : c < 65536) :
    escapeChar c = specEscapeChar c := by
  unfold escapeChar specEscapeChar
  split_ifs <;> simp [padHex_eq h]

/-! ## How the parser consumes one escaped character -/

lemma parse_cons_quote (l : List Nat) : parseStringBody (34 :: l) = some ([], l) := by
  simp [parseStringBody.eq_def]

lemma parse_cons_plain {c : Nat} (h34 : c ≠ 34) (h92 : c ≠ 92) (h32 : 32 ≤ c)
    (l : List Nat) :
    parseStringBody (c :: l) = (parseStringBody l).map (fun p => (c :: p.1, p.2)) := by
  rw [parseStringBody.eq_def]
  simp [h34, h92, show ¬c < 32 by omega]

lemma parse_cons_esc {e d : Nat} (he : escCode e = some d) (l : List Nat) :
    parseStringBody (92 :: e :: l) =
      (parseStringBody l).map (fun p => (d :: p.1, p.2)) := by
  have h117 : e ≠ 117 := by
    intro h
    subst h
    simp [escCode] at he
  rw [parseStringBody.eq_def]
  simp [h117, he]

lemma parse_cons_hex {h1 h2 h3 h4 v1 v2 v3 v4 : Nat}
    (e1 : hexVal h1 = some v1) (e2 : hexVal h2 = some v2)
    (e3 : hexVal h3 = some v3) (e4 : hexVal h4 = some v4) (l : List Nat) :
    parseStringBody (92 :: 117 :: h1 :: h2 :: h3 :: h4 :: l) =
      (parseStringBody l).map
        (fun p => ((v1 * 4096 + v2 * 256 + v3 * 16 + v4) :: p.1, p.2)) := by
  rw [parseStringBody.eq_def]
  simp [e1, e2, e3, e4]

lemma parse_escapeChar {c : Nat} (hc : c < 65536) (l : List Nat) :
    parseStringBody (escapeChar c ++ l) =
      (parseStringBody l).map (fun p => (c :: p.1, p.2)) := by
  unfold escapeChar
  split_ifs with i1 i2 i3 i4 i5 i6 i7 i8 i9
  · subst i1; exact parse_cons_esc (by decide) l
  · subst i2; exact parse_cons_esc (by decide) l
  · subst i3; exact parse_cons_esc (by decide) l
  · subst i4; exact parse_cons_esc (by decide) l
  · subst i5; exact parse_cons_esc (by decide) l
  · subst i6; exact parse_cons_esc (by decide) l
  · subst i7; exact parse_cons_esc (by decide) l
  · subst i8; exact parse_cons_esc (by decide) l
  · rw [padHex_eq hc]
    have g1 := hexVal_hexDigitChar (show c / 4096 % 16 < 16 by omega)
    have g2 := hexVal_hexDigitChar (show c / 256 % 16 < 16 by omega)
    have g3 := hexVal_hexDigitChar (show c / 16 % 16 < 16 by omega)
    have g4 := hexVal_hexDigitChar (show c % 16 < 16 by omega)
    have hval : c / 4096 % 16 * 4096 + c / 256 % 16 * 256 + c / 16 % 16 * 16 + c % 16 = c := by
      omega
    simp only [hex4, List.cons_append, List.nil_append]
    rw [parse_cons_hex g1 g2 g3 g4 l]
    simp only [hval]
  · simp only [List.cons_append, List.nil_append]
    exact parse_cons_plain i1 i2 (by omega) l

lemma parse_escape_append {s : List Nat} (hs : ∀ c ∈ s, c < 65536) (l : List Nat) :
    parseStringBody (escapeJsonString s ++ l) =
      (parseStringBody l).map (fun p => (s ++ p.1, p.2)) := by
  induction s with
  | nil =>
    rcases hp : parseStringBody l with _ | p <;>
      simp [escapeJsonString, hp]
  | cons c rest ih =>
    rw [escape_cons, List.append_assoc,
      parse_escapeChar (hs c (by simp)) (escapeJsonString rest ++ l),
      ih (fun x hx => hs x (by simp [hx]))]
    rcases parseStringBody l with _ | p <;> simp

lemma unescape_escape {s : List Nat} (hs : ∀ c ∈ s, c < 65536) :
    unescape (escapeJsonString s) = some s := by
  rw [unescape, parseJsonStringLiteral.eq_def]
  simp [parse_escape_append hs [34], parse_cons_quote]

/-! ## The parser against the grammar relation -/

lemma bodyDeriv_parse {body v : List Nat} (h : BodyDeriv body v) :
    parseStringBody (body ++ [34]) = some (v, []) := by
  induction h with
  | nil => simpa using parse_cons_quote []
  | plain h34 h92 h32 _ ih =>
    rw [List.cons_append, parse_cons_plain h34 h92 h32, ih]
    rfl
  | esc he _ ih =>
    simp only [List.cons_append]
    rw [parse_cons_esc he, ih]
    rfl
  | hex e1 e2 e3 e4 _ ih =>
    simp only [List.cons_append]
    rw [parse_cons_hex e1 e2 e3 e4, ih]
    rfl

lemma parse_bodyDeriv : ∀ (n : Nat) (body : List Nat), body.length ≤ n →
    ∀ v, parseStringBody (body ++ [34]) = some (v, []) → BodyDeriv body v := by
  intro n
  induction n with
  | zero =>
    intro body hlen v hp
    have hb : body = [] := by
      cases body
      · rfl
      · simp at hlen
    subst hb
    rw [List.nil_append, parse_cons_quote] at hp
    simp only [Option.some.injEq, Prod.mk.injEq] at hp
    rw [← hp.1]
    exact BodyDeriv.nil
  | succ n ih =>
    intro body hlen v hp
    cases body with
    | nil =>
      rw [List.nil_append, parse_cons_quote] at hp
      simp only [Option.some.injEq, Prod.mk.injEq] at hp
      rw [← hp.1]
      exact BodyDeriv.nil
    | cons c rest =>
      simp only [List.length_cons] at hlen
      by_cases hc34 : c = 34
      · subst hc34
        rw [List.cons_append, parse_cons_quote] at hp
        simp only [Option.some.injEq, Prod.mk.injEq] at hp
        exact absurd hp.2 (by simp)
      · by_cases hc92 : c = 92
        · subst hc92
          cases rest with
          | nil =>
            exfalso
            rw [show ([92] : List Nat) ++ [34] = 92 :: 34 :: [] from rfl,
              parse_cons_esc (show escCode 34 = some 34 by decide)] at hp
            rw [parseStringBody.eq_def] at hp
            simp at hp
          | cons e rest2 =>
            simp only [List.length_cons] at hlen
            by_cases he117 : e = 117
            · subst he117
              rcases rest2 with _ | ⟨a, _ | ⟨b, _ | ⟨k, _ | ⟨d, rest6⟩⟩⟩⟩
              · exfalso
                rw [parseStringBody.eq_def] at hp
                simp at hp
              · exfalso
                rw [parseStringBody.eq_def] at hp
                simp at hp
              · exfalso
                rw [parseStringBody.eq_def] at hp
                simp at hp
              · exfalso
                rw [parseStringBody.eq_def] at hp
                rcases hva : hexVal a with _ | va <;>
                  rcases hvb : hexVal b with _ | vb <;>
                    rcases hvk : hexVal k with _ | vk <;>
                      simp [hva, hvb, hvk, show hexVal 34 = none by decide] at hp
              · simp only [List.cons_append] at hp
                rcases hva : hexVal a with _ | va
                · exfalso
                  rw [parseStringBody.eq_def] at hp
                  simp [hva] at hp
                · rcases hvb : hexVal b with _ | vb
                  · exfalso
                    rw [parseStringBody.eq_def] at hp
                    simp [hva, hvb] at hp
                  · rcases hvk : hexVal k with _ | vk
                    · exfalso
                      rw [parseStringBody.eq_def] at hp
                      simp [hva, hvb, hvk] at hp
                    · rcases hvd : hexVal d with _ | vd
                      · exfalso
                        rw [parseStringBody.eq_def] at hp
                        simp [hva, hvb, hvk, hvd] at hp
                      · rw [parse_cons_hex hva hvb hvk hvd] at hp
                        rcases hrec : parseStringBody (rest6 ++ [34]) with _ | ⟨v6, r6⟩
                        · rw [hrec] at hp
                          simp at hp
                        · rw [hrec] at hp
                          simp only [Option.map_some', Option.some.injEq,
                            Prod.mk.injEq] at hp
                          obtain ⟨hv, hr⟩ := hp
                          subst hr
                          rw [← hv]
                          simp only [List.length_cons] at hlen
                          exact BodyDeriv.hex hva hvb hvk hvd
                            (ih rest6 (by omega) v6 hrec)
            · rcases hesc : escCode e with _ | d
              · exfalso
                rw [parseStringBody.eq_def] at hp
                simp [he117, hesc] at hp
              · simp only [List.cons_append] at hp
                rw [parse_cons_esc hesc] at hp
                rcases hrec : parseStringBody (rest2 ++ [34]) with _ | ⟨v2, r2⟩
                · rw [hrec] at hp
                  simp at hp
                · rw [hrec] at hp
                  simp only [Option.map_some', Option.some.injEq, Prod.mk.injEq] at hp
                  obtain ⟨hv, hr⟩ := hp
                  subst hr
                  rw [← hv]
                  exact BodyDeriv.esc hesc (ih rest2 (by omega) v2 hrec)
        · by_cases hc32 : c < 32
          · exfalso
            rw [List.cons_append] at hp
            rw [parseStringBody.eq_def] at hp
            simp [hc34, hc92, hc32] at hp
          · rw [List.cons_append, parse_cons_plain hc34 hc92 (by omega)] at hp
            rcases hrec : parseStringBody (rest ++ [34]) with _ | ⟨vr, rr⟩
            · rw [hrec] at hp
              simp at hp
            · rw [hrec] at hp
              simp only [Option.map_some', Option.some.injEq, Prod.mk.injEq] at hp
              obtain ⟨hv, hr⟩ := hp
              subst hr
              rw [← hv]
              exact BodyDeriv.plain hc34 hc92 (by omega) (ih rest (by omega) vr hrec)

lemma unescape_eq (input : List Nat) :
    unescape input =
      match parseStringBody (input ++ [34]) with
      | some (v, r) => if r = [] then some v else none
      | none => none := by
  rw [unescape, parseJsonStringLiteral.eq_def]
  simp

/-! ## More facts about single escaped characters -/

lemma escapeChar_range {c : Nat} (hc : c < 65536) :
    ∀ x ∈ escapeChar c, 32 ≤ x ∧ x ≤ 126 := by
  intro x hx
  rw [escapeChar_eq_spec hc] at hx
  unfold specEscapeChar at hx
  split_ifs at hx with i1 i2 i3 i4 i5 i6 i7 i8 i9
  · simp at hx; omega
  · simp at hx; omega
  · simp at hx; omega
  · simp at hx; omega
  · simp at hx; omega
  · simp at hx; omega
  · simp at hx; omega
  · simp at hx; omega
  · simp [hex4] at hx
    rcases hx with rfl | rfl | rfl | rfl | rfl | rfl
    · omega
    · omega
    · exact hexDigitChar_range (by omega)
    · exact hexDigitChar_range (by omega)
    · exact hexDigitChar_range (by omega)
    · exact hexDigitChar_range (by omega)
  · simp at hx
    omega

lemma escapeChar_gt126 {c : Nat} (h126 : 126 < c) (hc : c < 65536) :
    escapeChar c = 92 :: 117 :: hex4 c := by
  rw [escapeChar_eq_spec hc]
  unfold specEscapeChar
  split_ifs <;> first | rfl | (exfalso; omega)

lemma escapeChar_plain {c : Nat} (h1 : 32 ≤ c) (h2 : c ≤ 126)
    (h3 : c ≠ 34) (h4 : c ≠ 92) (h5 : c ≠ 47) : escapeChar c = [c] := by
  unfold escapeChar
  split_ifs <;> first | rfl | (exfalso; omega)

/-! ## The claims -/

/-- C1: for every Text `s` (a sequence of UTF-16 code units) containing
no unpaired surrogate code units, unescaping the escaped form gives back
`s`: `unescape (escape s) = s`. -/
theorem roundtrip_wellFormed (s : List Nat) (h1 : ∀ c ∈ s, c < 65536)
    (_h2 : wellFormedUtf16 s = true) :
    unescape (escapeJsonString s) = some s :=
  unescape_escape h1

theorem roundtrip_wellFormed_witness :
    ((∀ c ∈ [97, 55357, 56832, 10], c < 65536) ∧
      wellFormedUtf16 [97, 55357, 56832, 10] = true) ∧
    unescape (escapeJsonString [97, 55357, 56832, 10]) =
      some [97, 55357, 56832, 10] :=
  ⟨⟨by decide, by decide⟩, roundtrip_wellFormed _ (by decide) (by decide)⟩

/-- C2: the escaper processes its input one UTF-16 code unit at a time
and maps each through the spec's substitution table (first match wins,
`\uXXXX` with exactly 4 uppercase zero-padded hexadecimal digits for
code units below 32 or above 126, printable ASCII unchanged); the output
is the concatenation of the per-character images in input order. -/
theorem escape_matches_spec_table (input : List Nat)
    (h : ∀ c ∈ input, c < 65536) :
    escapeJsonString input = (input.map specEscapeChar).flatten := by
  rw [escapeJsonString_eq_join]
  congr 1
  exact List.map_congr_left fun c hc => escapeChar_eq_spec (h c hc)

theorem escape_matches_spec_table_witness :
    (∀ c ∈ [34, 9, 97, 233, 55296], c < 65536) ∧
    escapeJsonString [34, 9, 97, 233, 55296] =
      (List.map specEscapeChar [34, 9, 97, 233, 55296]).flatten :=
  ⟨by decide, escape_matches_spec_table _ (by decide)⟩

/-- C3: every code unit of the escaped output is printable ASCII
(32 to 126), and surrounding the output with double quotes yields a
syntactically valid JSON string literal whose parsed value is the
original input. -/
theorem escape_output_ascii_valid (input : List Nat)
    (h : ∀ c ∈ input, c < 65536) :
    (∀ x ∈ escapeJsonString input, 32 ≤ x ∧ x ≤ 126) ∧
    parseJsonStringLiteral (34 :: escapeJsonString input ++ [34]) =
      some input := by
  refine ⟨fun x hx => ?_, unescape_escape h⟩
  rw [escapeJsonString_eq_join] at hx
  simp only [List.mem_flatten, List.mem_map] at hx
  obtain ⟨l, ⟨c, hc, rfl⟩, hxl⟩ := hx
  exact escapeChar_range (h c hc) x hxl

theorem escape_output_ascii_valid_witness :
    (∀ c ∈ [10, 97, 233], c < 65536) ∧
    ((∀ x ∈ escapeJsonString [10, 97, 233], 32 ≤ x ∧ x ≤ 126) ∧
      parseJsonStringLiteral (34 :: escapeJsonString [10, 97, 233] ++ [34]) =
        some [10, 97, 233]) :=
  ⟨by decide, escape_output_ascii_valid _ (by decide)⟩

/-- C4: unescape succeeds exactly on the syntactically valid escaped
string bodies — the inputs derivable by the JSON string-literal grammar
`BodyDeriv` — and on success its result is the decoded Text value of
the literal; on failure (`none`) no output value is produced. -/
theorem unescape_iff_grammar (input : List Nat) :
    (∀ v, unescape input = some v ↔ BodyDeriv input v) ∧
    (unescape input = none ↔ ¬∃ v, BodyDeriv input v) := by
  have main : ∀ v, unescape input = some v ↔ BodyDeriv input v := by
    intro v
    constructor
    · intro h
      rw [unescape_eq] at h
      rcases hp : parseStringBody (input ++ [34]) with _ | ⟨v0, r0⟩
      · rw [hp] at h
        simp at h
      · rw [hp] at h
        by_cases hr : r0 = []
        · subst hr
          simp only [if_pos, Option.some.injEq] at h
          subst h
          exact parse_bodyDeriv input.length input le_rfl v0 hp
        · simp [hr] at h
    · intro h
      rw [unescape_eq, bodyDeriv_parse h]
      simp
  refine ⟨main, ?_, ?_⟩
  · intro hn
    rintro ⟨v, hv⟩
    rw [(main v).mpr hv] at hn
    exact Option.noConfusion hn
  · intro hne
    rcases h : unescape input with _ | v
    · rfl
    · exact absurd ⟨v, (main v).mp h⟩ hne

/-- C5: the escaper is total and never fails — it is a function defined
on every sequence of code units, the empty string maps to the empty
string, and every single code unit has a defined, nonempty image. -/
theorem escape_total_never_fails :
    escapeJsonString [] = [] ∧ ∀ c : Nat, escapeChar c ≠ [] := by
  refine ⟨rfl, fun c => ?_⟩
  unfold escapeChar
  split_ifs <;> simp

/-- C6: whenever unescape fails, the diagnostic text written to the
output field is the fixed header
`ERROR: Invalid string to unescape. Please check the format.` followed
(after the `Details:` separator) by the underlying parser's message. -/
theorem unescape_error_message (input msg : List Nat)
    (h : unescape input = none) :
    handleUnescape input msg = errorHeader ++ detailsSep ++ msg := by
  have hne : input ≠ [] := by
    intro he
    rw [he] at h
    exact absurd h (by decide)
  unfold handleUnescape
  rw [if_neg hne, h]

theorem unescape_error_message_witness :
    unescape (strCodes "a\\qb") = none ∧
    handleUnescape (strCodes "a\\qb") (strCodes "boom") =
      errorHeader ++ detailsSep ++ strCodes "boom" :=
  ⟨by decide, unescape_error_message _ _ (by decide)⟩

/-- C7: a code point above the Basic Multilingual Plane is escaped
per UTF-16 code unit: each of its two surrogate halves becomes its own
`\uXXXX` sequence, and the result still round-trips through the JSON
string parser. -/
theorem astral_per_unit_escape (cp : Nat) (pre post : List Nat)
    (hcp1 : 65536 ≤ cp) (hcp2 : cp ≤ 1114111)
    (hpre : ∀ c ∈ pre, c < 65536) (hpost : ∀ c ∈ post, c < 65536) :
    escapeJsonString (pre ++ utf16Encode cp ++ post) =
      escapeJsonString pre ++
        (92 :: 117 :: hex4 (55296 + (cp - 65536) / 1024)) ++
        (92 :: 117 :: hex4 (56320 + (cp - 65536) % 1024)) ++
      escapeJsonString post ∧
    unescape (escapeJsonString (pre ++ utf16Encode cp ++ post)) =
      some (pre ++ utf16Encode cp ++ post) := by
  have hhi1 : 126 < 55296 + (cp - 65536) / 1024 := by omega
  have hhi2 : 55296 + (cp - 65536) / 1024 < 65536 := by omega
  have hlo1 : 126 < 56320 + (cp - 65536) % 1024 := by omega
  have hlo2 : 56320 + (cp - 65536) % 1024 < 65536 := by omega
  constructor
  · rw [escape_append, escape_append, utf16Encode, escape_cons, escape_cons,
      escapeChar_gt126 hhi1 hhi2, escapeChar_gt126 hlo1 hlo2]
    simp [escapeJsonString, List.append_assoc]
  · apply unescape_escape
    intro c hc
    simp only [utf16Encode, List.mem_append, List.mem_cons,
      List.not_mem_nil, or_false] at hc
    rcases hc with (hc | hc | hc) | hc
    · exact hpre c hc
    · omega
    · omega
    · exact hpost c hc

theorem astral_per_unit_escape_witness :
    (65536 ≤ 128512 ∧ 128512 ≤ 1114111) ∧
    (escapeJsonString ([97] ++ utf16Encode 128512 ++ [98]) =
        escapeJsonString [97] ++
          (92 :: 117 :: hex4 (55296 + (128512 - 65536) / 1024)) ++
          (92 :: 117 :: hex4 (56320 + (128512 - 65536) % 1024)) ++
        escapeJsonString [98] ∧
      unescape (escapeJsonString ([97] ++ utf16Encode 128512 ++ [98])) =
        some ([97] ++ utf16Encode 128512 ++ [98])) :=
  ⟨by decide,
    astral_per_unit_escape 128512 [97] [98] (by decide) (by decide)
      (by decide) (by decide)⟩

/-- C8: the escaper is the identity on already-ASCII-safe text — every
code unit between 32 and 126 that is not a double quote, backslash or
forward slash passes through unchanged, so such strings come back
verbatim with no quotes added. -/
theorem escape_identity_on_safe (s : List Nat)
    (h : ∀ c ∈ s, 32 ≤ c ∧ c ≤ 126 ∧ c ≠ 34 ∧ c ≠ 92 ∧ c ≠ 47) :
    escapeJsonString s = s := by
  induction s with
  | nil => rfl
  | cons c rest ih =>
    obtain ⟨h1, h2, h3, h4, h5⟩ := h c (by simp)
    rw [escape_cons, escapeChar_plain h1 h2 h3 h4 h5,
      ih (fun x hx => h x (by simp [hx]))]
    rfl

theorem escape_identity_on_safe_witness :
    (∀ c ∈ strCodes "hello", 32 ≤ c ∧ c ≤ 126 ∧ c ≠ 34 ∧ c ≠ 92 ∧ c ≠ 47) ∧
    escapeJsonString (strCodes "hello") = strCodes "hello" :=
  ⟨by decide, escape_identity_on_safe _ (by decide)⟩

/-- C9: the escaper is a monoid homomorphism with respect to string
concatenation: `escape (s ++ t) = escape s ++ escape t` for all inputs. -/
theorem escape_append_hom (s t : List Nat) :
    escapeJsonString (s ++ t) = escapeJsonString s ++ escapeJsonString t :=
  escape_append s t

/-- C10: the round-trip law holds for every sequence of UTF-16 code
units, unpaired surrogates included: each lone surrogate is escaped as a
`\uXXXX` sequence that the parser decodes back to the same code unit. -/
theorem roundtrip_all_units (s : List Nat) (h1 : ∀ c ∈ s, c < 65536) :
    unescape (escapeJsonString s) = some s :=
  unescape_escape h1

theorem roundtrip_all_units_witness :
    (∀ c ∈ [55296, 97], c < 65536) ∧
    unescape (escapeJsonString [55296, 97]) = some [55296, 97] :=
  ⟨by decide, roundtrip_all_units _ (by decide)⟩
